import Mathlib

/-!
Verification of the MoMo-Hub backup/restore subsystem.

This file gives a shallow embedding of `BackupService`
(`server/backupService.ts`) and of `DatabaseStorage.updateStorageUsage`
(`server/storage.ts`), and proves the specified properties about it.

Modelling conventions:
* Filesystem paths are lists of segments, relative to the process working
  directory (`process.cwd()` is the empty list `[]`).
* `path.join` is modelled by `joinPath`: each argument is split on `/` and
  the resulting segment list is normalised the way Node does it (`.` is
  dropped, `..` pops the previous segment when possible).
* Machine-level failures of the external collaborators (archiver, the
  supabase client) are injected through an `Env` record: each fallible
  call site reads its outcome from `Env`.
* The supabase storage client is external to the repository; its calls
  (upload / download / list over a bucket) are modelled from its
  documented contract as a key-value store whose keys are paths, with
  folder listing returning direct children sorted as requested.
-/

namespace MoMoHub

/-- A filesystem path, as a list of segments relative to `process.cwd()`. -/
abbrev FsPath := List String

deriving instance DecidableEq for Except

/-- One step of Node-style path normalisation over a reversed segment
stack: empty and `.` segments are dropped, `..` pops the previous segment
unless none is available (or the previous one is itself `..`). -/
def normFold (stack : List String) (seg : String) : List String :=
  if seg = "" || seg = "." then stack
  else if seg = ".." then
    match stack with
    | [] => [".."]
    | top :: rest => if top = ".." then ".." :: top :: rest else rest
  else seg :: stack

/-- Split a character list on the separator character `/`. -/
def splitCharsOnSlash : List Char → List (List Char)
  | [] => [[]]
  | c :: cs =>
    let rest := splitCharsOnSlash cs
    if c = '/' then [] :: rest
    else
      match rest with
      | [] => [[c]]
      | h :: t => (c :: h) :: t

/-- Split a string path component on the separator, as `path.join` does. -/
def splitSegs (s : String) : List String :=
  (splitCharsOnSlash s.data).map (fun cs => String.mk cs)

/-- Node `path.join` over components relative to the working directory:
split every component on `/`, then normalise `.` and `..` segments. -/
def joinPath (parts : List String) : FsPath :=
  ((parts.map splitSegs).flatten.foldl normFold []).reverse

/-- A segment that is a plain file/directory name: splitting it on the
separator leaves it untouched (i.e. it contains no `/`) and it is not
empty nor a dot segment. -/
def PlainSeg (s : String) : Prop :=
  splitSegs s = [s] ∧ s ≠ "" ∧ s ≠ "." ∧ s ≠ ".."

instance (s : String) : Decidable (PlainSeg s) := by
  unfold PlainSeg; infer_instance

/-! ## Filesystem model (fs-extra operations used by the service) -/

/-- Metadata of a file as reported by `fs.stat`: size in bytes and the
birth time (creation instant, in milliseconds since the epoch). -/
structure FileMeta where
  size : Nat
  birthtime : Nat
deriving DecidableEq, Repr

/-- The local filesystem: a finite map from paths to file metadata, plus
the set of directories explicitly created with `ensureDir`. -/
structure Fs where
  files : List (FsPath × FileMeta)
  dirs : List FsPath
deriving DecidableEq, Repr

/-- `fs.pathExists`: a path exists when it is a file, a directory, or an
ancestor of one. -/
def Fs.pathExists (fs : Fs) (p : FsPath) : Bool :=
  fs.files.any (fun f => List.isPrefixOf p f.1) || fs.dirs.any (fun d => List.isPrefixOf p d)

/-- `fs.stat` restricted to files (the only use in the service). -/
def Fs.statF (fs : Fs) (p : FsPath) : Option FileMeta :=
  (fs.files.find? (fun f => f.1 == p)).map (fun f => f.2)

/-- `fs.writeFile` (and the archiver output stream): create or overwrite
the file at `p`. -/
def Fs.writeFile (fs : Fs) (p : FsPath) (m : FileMeta) : Fs :=
  { fs with files := (p, m) :: fs.files.filter (fun f => !(f.1 == p)) }

/-- `fs.remove` on a file path. -/
def Fs.removeF (fs : Fs) (p : FsPath) : Fs :=
  { fs with files := fs.files.filter (fun f => !(f.1 == p)) }

/-- `fs.ensureDir` / `fs.ensureDirSync`: record the directory. -/
def Fs.ensureDir (fs : Fs) (p : FsPath) : Fs :=
  { fs with dirs := if fs.dirs.contains p then fs.dirs else p :: fs.dirs }

/-- `fs.move src dst`: a rename; metadata (including birth time) travels
with the file. -/
def Fs.moveF (fs : Fs) (src dst : FsPath) : Fs :=
  match fs.statF src with
  | none => fs
  | some m => (fs.removeF src).writeFile dst m

/-- The files directly inside directory `p`, with their metadata: models
`fs.readdir` followed by `fs.stat` on each entry. -/
def Fs.childFiles (fs : Fs) (p : FsPath) : List (String × FileMeta) :=
  (fs.files.filter (fun f => List.isPrefixOf p f.1 && f.1.length == p.length + 1)).map
    (fun f => ((f.1.drop p.length).headD "", f.2))

/-! ## Cloud storage model (supabase storage client, external collaborator)

The supabase client is not part of this repository; it is modelled from
its documented contract: a bucket is a key-value store of objects, keys
are `/`-separated (modelled as `FsPath` segment lists), `list folder`
returns the direct children of `folder` sorted as requested, `upload`
with `upsert` overwrites, `download` fails when the key is absent. -/

/-- An object stored in the bucket. `size` is the provider-reported
metadata size (absent when the provider omits it). -/
structure CloudObject where
  key : FsPath
  size : Option Nat
  created_at : Nat
deriving DecidableEq, Repr

/-- The remote bucket state. -/
structure Cloud where
  bucketExists : Bool
  objects : List CloudObject
deriving DecidableEq, Repr

/-- Direct children of the folder named `u` in the bucket. -/
def Cloud.children (c : Cloud) (u : String) : List CloudObject :=
  c.objects.filter (fun o =>
    List.isPrefixOf (splitSegs u) o.key && o.key.length == (splitSegs u).length + 1)

/-! ## Users table (storage.ts collaborator) -/

/-- A row of the `users` table, with the columns the server code uses. -/
structure UserRow where
  id : String
  businessName : String
  pinHash : String
  email : Option String
  storageUsed : Nat
  storageLimit : Nat
deriving DecidableEq, Repr

/-- `DatabaseStorage.updateStorageUsage`: sets `storageUsed := bytes` on
every row whose `id` equals `userId` and touches nothing else
(`db.update(users).set(\x7bstorageUsed: bytes\x7d).where(eq(users.id, userId))`). -/
def updateStorageUsage (rows : List UserRow) (userId : String) (bytes : Nat) : List UserRow :=
  rows.map (fun u => if u.id = userId then { u with storageUsed := bytes } else u)

/-! ## Descending sort by a numeric key

Models the JavaScript `array.sort((a, b) => keyOf b - keyOf a)` (local
mode) and the provider-side `sortBy created_at desc` (cloud mode). -/

/-- `a` precedes `b` in a descending ordering by `key`. -/
def keyDesc {α : Type} (key : α → Nat) (a b : α) : Prop :=
  key b ≤ key a

instance {α : Type} (key : α → Nat) : DecidableRel (keyDesc key) :=
  fun a b => Nat.decLe (key b) (key a)

instance {α : Type} (key : α → Nat) : IsTotal α (keyDesc key) :=
  ⟨fun a b => Nat.le_total (key b) (key a)⟩

instance {α : Type} (key : α → Nat) : IsTrans α (keyDesc key) :=
  ⟨fun _ _ _ h1 h2 => Nat.le_trans h2 h1⟩

/-- Sort a list in descending `key` order. -/
def sortByDesc {α : Type} (key : α → Nat) (l : List α) : List α :=
  l.insertionSort (keyDesc key)

/-! ## The backup service -/

/-- The resolved deployment mode. -/
inductive DeployMode where
  | cloud
  | local
deriving DecidableEq, Repr

/-- The mutable fields of the `BackupService` object: the resolved mode
and whether `this.client` was assigned. -/
structure BackupService where
  deployMode : DeployMode
  hasClient : Bool
deriving DecidableEq, Repr

/-- JavaScript truthiness of an optional environment-variable string:
falsy when unset or empty. -/
def jsTruthy (s : Option String) : Bool :=
  match s with
  | none => false
  | some v => !(v == "")

/-- `String.prototype.startsWith`: the characters of `pre` are a prefix
of the characters of `s`. -/
def strStartsWith (s pre : String) : Bool :=
  List.isPrefixOf pre.data s.data

/-- The `BackupService` constructor: cloud mode exactly when both
`SUPABASE_URL` and `SUPABASE_KEY` are truthy, the URL starts with
`"http"`, and `createClient` does not throw (`createClientOk`); any
failure silently falls back to local mode. -/
def mkBackupService (url key : Option String) (createClientOk : Bool) : BackupService :=
  if jsTruthy url && jsTruthy key && strStartsWith (url.getD "") "http" then
    if createClientOk then ⟨DeployMode.cloud, true⟩ else ⟨DeployMode.local, false⟩
  else ⟨DeployMode.local, false⟩

/-- Outcome reported by the supabase `getBucket` call when it errors:
`notFound` models `message.includes("not found") || status === 404`. -/
structure BucketErr where
  message : String
  notFound : Bool
deriving DecidableEq, Repr

/-- Per-call environment: the wall clock and the outcomes of the fallible
external calls (archiver, supabase client, local fs during listing). -/
structure Env where
  timestamp : String
  now : Nat
  zipResult : Except String Nat
  getBucketRes : Except BucketErr Unit
  createBucketRes : Except String Unit
  uploadRes : Except String Unit
  downloadRes : Except String Unit
  listRes : Except String Unit
  localListErr : Option String

/-- The whole world a service call can read or write: the service object
itself, the local filesystem, the remote bucket, the `users` table, the
trace of `updateStorageUsage` invocations and the trace of file writes. -/
structure St where
  svc : BackupService
  fs : Fs
  cloud : Cloud
  users : List UserRow
  usageCalls : List (String × Nat)
  writes : List FsPath
deriving DecidableEq, Repr

/-- `path.join(process.cwd(), "database.db")`. -/
def dbPath : FsPath := ["database.db"]

/-- The root of local backups, `path.join(process.cwd(), "backups")`. -/
def backupsRoot : String := "backups"

/-- The generated archive name `backup_<timestamp>_GMT.zip`. -/
def backupFileName (ts : String) : String :=
  "backup_" ++ ts ++ "_GMT.zip"

/-- The fixed cloud-restore download path,
`path.join(process.cwd(), "restore_temp.zip")`. -/
def restoreTempPath : FsPath := joinPath ["restore_temp.zip"]

/-- A record returned by `listBackups`. -/
structure BackupRecord where
  id : String
  name : String
  size : Nat
  created_at : Nat
deriving DecidableEq, Repr

/-! ## createBackup -/

/-- Result shape of `createBackup`. -/
structure CreateResult where
  success : Bool
  size : Nat
  message : String
deriving DecidableEq, Repr

/-- The cloud upload step of `createBackup`: on success the object is
upserted at key `userId/fileName` and the staged temp file is removed. -/
def cloudUpload (env : Env) (u fileName : String) (size : Nat) (st : St) :
    Except String Unit × St :=
  match env.uploadRes with
  | Except.error e => (Except.error e, st)
  | Except.ok _ =>
    (Except.ok (),
     { st with
       cloud := { st.cloud with
                  objects :=
                    (⟨splitSegs u ++ splitSegs fileName, some size, env.now⟩ : CloudObject) ::
                      st.cloud.objects.filter
                        (fun o => !(o.key == splitSegs u ++ splitSegs fileName)) }
       fs := st.fs.removeF (joinPath [fileName]) })

/-- Step 4 of `createBackup`: hand the staged archive to the active
backend (cloud: ensure the bucket then upload then delete the staging
file; local: move the staging file into the owner directory). -/
def persistStep (env : Env) (u fileName : String) (size : Nat) (st1 : St) :
    Except String Unit × St :=
  if st1.svc.deployMode == DeployMode.cloud && st1.svc.hasClient then
    match env.getBucketRes with
    | Except.error be =>
      if be.notFound then
        match env.createBucketRes with
        | Except.error ce =>
          (Except.error ("Supabase bucket \x27momo-backups\x27 missing and auto-creation failed: "
            ++ ce ++ ". Please create it manually."), st1)
        | Except.ok _ =>
          cloudUpload env u fileName size
            { st1 with cloud := { st1.cloud with bucketExists := true } }
      else (Except.error be.message, st1)
    | Except.ok _ => cloudUpload env u fileName size st1
  else
    (Except.ok (),
     { st1 with
       fs := (st1.fs.ensureDir (joinPath [backupsRoot, u])).moveF (joinPath [fileName])
               (joinPath [backupsRoot, u, fileName])
       writes := st1.writes ++ [joinPath [backupsRoot, u, fileName]] })

/-- Steps 2 and 3 of `createBackup`: the archive builder writes the
staged archive at the temp path (its `stat` size is `size`). -/
def stageState (env : Env) (size : Nat) (st : St) : St :=
  { st with
    fs := st.fs.writeFile (joinPath [backupFileName env.timestamp]) ⟨size, env.now⟩
    writes := st.writes ++ [joinPath [backupFileName env.timestamp]] }

/-- Step 5 of `createBackup`: report the archive size to the
usage-accounting collaborator. -/
def accountState (u : String) (size : Nat) (st : St) : St :=
  { st with
    users := updateStorageUsage st.users u size
    usageCalls := st.usageCalls ++ [(u, size)] }

/-- The body of the `try` block of `createBackup`; an `Except.error`
result is the exception reaching the `catch`, paired with the state the
world was left in. -/
def createBackupGo (env : Env) (u : String) (st : St) : Except String Nat × St :=
  if !(st.fs.pathExists dbPath) then
    (Except.error "Database file (database.db) not found", st)
  else
    match env.zipResult with
    | Except.error e => (Except.error e, st)
    | Except.ok size =>
      match persistStep env u (backupFileName env.timestamp) size (stageState env size st) with
      | (Except.error e, st2) => (Except.error e, st2)
      | (Except.ok _, st2) => (Except.ok size, accountState u size st2)

/-- The printed name of a deployment mode. -/
def modeStr : DeployMode → String
  | DeployMode.cloud => "cloud"
  | DeployMode.local => "local"

/-- `BackupService.createBackup`: the `try` body with its `catch`
converting any exception into `{success: false, size: 0, message}`. -/
def createBackup (env : Env) (u : String) (st : St) : CreateResult × St :=
  match createBackupGo env u st with
  | (Except.ok size, st1) =>
    ({ success := true, size := size,
       message := "Backup successful (" ++ modeStr st1.svc.deployMode ++ ")" }, st1)
  | (Except.error m, st1) =>
    ({ success := false, size := 0, message := m }, st1)

/-! ## listBackups -/

/-- The record `listBackups` builds from one cloud listing item: the name
is the filename component of the key, a missing metadata size defaults
to 0. -/
def cloudRecord (u : String) (o : CloudObject) : BackupRecord :=
  { id := (o.key.drop (splitSegs u).length).headD ""
    name := (o.key.drop (splitSegs u).length).headD ""
    size := o.size.getD 0
    created_at := o.created_at }

/-- Cloud listing: the provider returns the direct children of folder
`u` sorted by `created_at` descending with a page limit of 100; the
service maps each item to a record. -/
def cloudListRecords (c : Cloud) (u : String) : List BackupRecord :=
  ((sortByDesc (fun o : CloudObject => o.created_at) (c.children u)).take 100).map
    (cloudRecord u)

/-- The records for the owner directory in local mode, before sorting. -/
def localRecords (fs : Fs) (u : String) : List BackupRecord :=
  (fs.childFiles (joinPath [backupsRoot, u])).map
    (fun nm => { id := nm.1, name := nm.1, size := nm.2.size, created_at := nm.2.birthtime })

/-- `BackupService.listBackups`: cloud mode delegates to the provider
listing and degrades any error to `[]`; local mode returns `[]` for a
missing owner directory, otherwise stats the directory entries and sorts
them by creation time descending, degrading any thrown error to `[]`. -/
def listBackups (env : Env) (u : String) (st : St) : List BackupRecord :=
  if st.svc.deployMode == DeployMode.cloud && st.svc.hasClient then
    match env.listRes with
    | Except.error _ => []
    | Except.ok _ => cloudListRecords st.cloud u
  else
    match env.localListErr with
    | some _ => []
    | none =>
      if st.fs.pathExists (joinPath [backupsRoot, u]) then
        sortByDesc (fun r : BackupRecord => r.created_at) (localRecords st.fs u)
      else []

/-! ## restoreBackup -/

/-- Step 1 of `restoreBackup`: resolve the restore source (cloud:
download `userId/backupId` and write it to the fixed temp path; local:
the path `backups/userId/backupId`, which must exist). -/
def resolveRestore (env : Env) (u b : String) (st : St) : Except String FsPath × St :=
  if st.svc.deployMode == DeployMode.cloud && st.svc.hasClient then
    match env.downloadRes with
    | Except.error e => (Except.error e, st)
    | Except.ok _ =>
      match st.cloud.objects.find? (fun o => o.key == splitSegs u ++ splitSegs b) with
      | none => (Except.error "Object not found", st)
      | some o =>
        (Except.ok restoreTempPath,
         { st with
           fs := st.fs.writeFile restoreTempPath ⟨o.size.getD 0, env.now⟩
           writes := st.writes ++ [restoreTempPath] })
  else
    if st.fs.pathExists (joinPath [backupsRoot, u, b]) then
      (Except.ok (joinPath [backupsRoot, u, b]), st)
    else (Except.error "Backup file not found locally", st)

/-- The body of the `try` block of `restoreBackup`: resolve the restore
source, log the mock restore, then remove the resolved source when in
cloud mode. -/
def restoreBackupGo (env : Env) (u b : String) (st : St) : Except String Unit × St :=
  match resolveRestore env u b st with
  | (Except.error e, st1) => (Except.error e, st1)
  | (Except.ok srcPath, st1) =>
    (Except.ok (),
     if st1.svc.deployMode == DeployMode.cloud then
       { st1 with fs := st1.fs.removeF srcPath }
     else st1)

/-- `BackupService.restoreBackup`: the `try` body with its `catch`
converting any exception into `false`. -/
def restoreBackup (env : Env) (u b : String) (st : St) : Bool × St :=
  match restoreBackupGo env u b st with
  | (Except.ok _, st1) => (true, st1)
  | (Except.error _, st1) => (false, st1)

/-! ## Concrete fixtures used by witnesses and counterexamples -/

/-- An environment in which every external call succeeds. -/
def envOk : Env :=
  { timestamp := "2024-01-02T03-04-05"
    now := 100
    zipResult := Except.ok 5
    getBucketRes := Except.ok ()
    createBucketRes := Except.ok ()
    uploadRes := Except.ok ()
    downloadRes := Except.ok ()
    listRes := Except.ok ()
    localListErr := none }

/-- One user row for the fixtures. -/
def aliceRow : UserRow :=
  { id := "alice", businessName := "A", pinHash := "h", email := none
    storageUsed := 0, storageLimit := 10 }

/-- A local-mode state whose filesystem holds the source database. -/
def stLocal : St :=
  { svc := ⟨DeployMode.local, false⟩
    fs := { files := [(["database.db"], ⟨7, 1⟩)], dirs := [["backups"]] }
    cloud := ⟨false, []⟩
    users := [aliceRow]
    usageCalls := []
    writes := [] }

/-- A cloud-mode state whose filesystem holds the source database and
whose bucket holds one backup object for owner `alice`. -/
def stCloud : St :=
  { svc := ⟨DeployMode.cloud, true⟩
    fs := { files := [(["database.db"], ⟨7, 1⟩)], dirs := [["backups"]] }
    cloud := ⟨true, [⟨["alice", "b1.zip"], some 5, 50⟩]⟩
    users := [aliceRow]
    usageCalls := []
    writes := [] }

/-- A local-mode state with three backups for `alice`, created at
increasing instants 10 < 20 < 30 and stored out of order. -/
def stThree : St :=
  { svc := ⟨DeployMode.local, false⟩
    fs := { files := [(["database.db"], ⟨7, 1⟩),
                      (["backups", "alice", "f1.zip"], ⟨1, 10⟩),
                      (["backups", "alice", "f3.zip"], ⟨3, 30⟩),
                      (["backups", "alice", "f2.zip"], ⟨2, 20⟩)]
            dirs := [["backups"]] }
    cloud := ⟨false, []⟩
    users := [aliceRow]
    usageCalls := []
    writes := [] }

/-- A local-mode state in which owner `bob` has one stored backup and
`alice` has none. -/
def stTraversal : St :=
  { svc := ⟨DeployMode.local, false⟩
    fs := { files := [(["backups", "bob", "secret.zip"], ⟨3, 9⟩)], dirs := [["backups"]] }
    cloud := ⟨false, []⟩
    users := [aliceRow]
    usageCalls := []
    writes := [] }

/-- A local-mode state with no source database file. -/
def stNoDb : St :=
  { svc := ⟨DeployMode.local, false⟩
    fs := { files := [], dirs := [["backups"]] }
    cloud := ⟨false, []⟩
    users := [aliceRow]
    usageCalls := []
    writes := [] }

/-! # Theorems -/

theorem normFold_plain {l : List String} (acc : List String)
    (h : ∀ s ∈ l, s ≠ "" ∧ s ≠ "." ∧ s ≠ "..") :
    l.foldl normFold acc = l.reverse ++ acc := by
  induction l generalizing acc with
  | nil => simp
  | cons a t ih =>
    have ha := h a (by simp)
    have ht : ∀ s ∈ t, s ≠ "" ∧ s ≠ "." ∧ s ≠ ".." := fun s hs => h s (by simp [hs])
    have hstep : normFold acc a = a :: acc := by
      unfold normFold
      simp [ha.1, ha.2.1, ha.2.2]
    simp only [List.foldl_cons, hstep, ih _ ht, List.reverse_cons, List.append_assoc,
      List.singleton_append]

/-- Joining plain segments is just the list of those segments. -/
theorem joinPath_plain {l : List String} (h : ∀ s ∈ l, PlainSeg s) :
    joinPath l = l := by
  unfold joinPath
  have hmap : l.map splitSegs = l.map (fun s => [s]) := by
    apply List.map_congr_left
    intro s hs; exact (h s hs).1
  have hjoin : ∀ m : List String, (m.map (fun s => [s])).flatten = m := by
    intro m
    induction m with
    | nil => simp
    | cons a t ih =>
      simp only [List.map_cons, List.flatten_cons, List.singleton_append, ih]
  rw [hmap, hjoin l, normFold_plain [] (fun s hs => (h s hs).2)]
  simp

theorem cloudUpload_frame (env : Env) (u f : String) (size : Nat) (st : St) :
    (cloudUpload env u f size st).2.svc = st.svc ∧
    (cloudUpload env u f size st).2.users = st.users ∧
    (cloudUpload env u f size st).2.usageCalls = st.usageCalls := by
  unfold cloudUpload
  rcases h : env.uploadRes with e | v <;> simp [h]

theorem persistStep_frame (env : Env) (u f : String) (size : Nat) (st1 : St) :
    (persistStep env u f size st1).2.svc = st1.svc ∧
    (persistStep env u f size st1).2.users = st1.users ∧
    (persistStep env u f size st1).2.usageCalls = st1.usageCalls := by
  unfold persistStep
  by_cases hc : (st1.svc.deployMode == DeployMode.cloud && st1.svc.hasClient) = true
  · simp only [hc, if_true]
    rcases hgb : env.getBucketRes with be | v
    · by_cases hnf : be.notFound = true
      · simp only [hnf, if_true]
        rcases hcb : env.createBucketRes with ce | v2
        · simp
        · exact cloudUpload_frame env u f size _
      · simp [hnf]
    · exact cloudUpload_frame env u f size st1
  · simp [hc]

theorem createBackupGo_spec (env : Env) (u : String) (st : St) :
    (∀ size st1, createBackupGo env u st = (Except.ok size, st1) →
       st1.svc = st.svc ∧
       st1.users = updateStorageUsage st.users u size ∧
       st1.usageCalls = st.usageCalls ++ [(u, size)]) ∧
    (∀ e st1, createBackupGo env u st = (Except.error e, st1) →
       st1.svc = st.svc ∧ st1.users = st.users ∧ st1.usageCalls = st.usageCalls) := by
  constructor
  · intro size st1 h
    unfold createBackupGo at h
    split at h
    · simp at h
    · split at h
      · simp at h
      · rename_i size0 hzip
        split at h
        · simp at h
        · rename_i a st2 heq
          simp only [Prod.mk.injEq, Except.ok.injEq] at h
          obtain ⟨hsz, hst⟩ := h
          subst hsz
          subst hst
          have hf := persistStep_frame env u (backupFileName env.timestamp) size0 (stageState env size0 st)
          rw [heq] at hf
          refine ⟨?_, ?_, ?_⟩ <;>
            simp [accountState, stageState, hf.1, hf.2.1, hf.2.2] <;>
            simp [stageState] at hf <;>
            simp [hf.1, hf.2.1, hf.2.2]
  · intro e st1 h
    unfold createBackupGo at h
    split at h
    · simp only [Prod.mk.injEq, Except.error.injEq] at h
      obtain ⟨he, hst⟩ := h
      subst hst
      exact ⟨rfl, rfl, rfl⟩
    · split at h
      · simp only [Prod.mk.injEq, Except.error.injEq] at h
        obtain ⟨he, hst⟩ := h
        subst hst
        exact ⟨rfl, rfl, rfl⟩
      · rename_i size0 hzip
        split at h
        · rename_i e2 st2 heq
          simp only [Prod.mk.injEq, Except.error.injEq] at h
          obtain ⟨he, hst⟩ := h
          subst hst
          have hf := persistStep_frame env u (backupFileName env.timestamp) size0 (stageState env size0 st)
          rw [heq] at hf
          simp [stageState] at hf
          exact ⟨hf.1, hf.2.1, hf.2.2⟩
        · simp at h

theorem resolveRestore_frame (env : Env) (u b : String) (st : St) :
    (resolveRestore env u b st).2.svc = st.svc ∧
    (resolveRestore env u b st).2.users = st.users ∧
    (resolveRestore env u b st).2.usageCalls = st.usageCalls := by
  unfold resolveRestore
  split
  · split
    · simp
    · split <;> simp
  · split <;> simp

theorem restoreBackupGo_frame (env : Env) (u b : String) (st : St) :
    (restoreBackupGo env u b st).2.svc = st.svc ∧
    (restoreBackupGo env u b st).2.users = st.users ∧
    (restoreBackupGo env u b st).2.usageCalls = st.usageCalls := by
  unfold restoreBackupGo
  have hr := resolveRestore_frame env u b st
  rcases hres : resolveRestore env u b st with ⟨r, st1⟩
  rw [hres] at hr
  rcases r with e | p
  · simpa using hr
  · simp only at hr
    by_cases hmode : st.svc.deployMode = DeployMode.cloud
    · simp [hmode, hr.1, hr.2.1, hr.2.2]
    · simp [hmode, hr.1, hr.2.1, hr.2.2]

theorem createBackup_svc (env : Env) (u : String) (st : St) :
    (createBackup env u st).2.svc = st.svc := by
  unfold createBackup
  rcases hgo : createBackupGo env u st with ⟨r, st1⟩
  rcases r with e | size
  · exact ((createBackupGo_spec env u st).2 e st1 hgo).1
  · exact ((createBackupGo_spec env u st).1 size st1 hgo).1

theorem restoreBackup_svc (env : Env) (u b : String) (st : St) :
    (restoreBackup env u b st).2.svc = st.svc := by
  unfold restoreBackup
  have hr := restoreBackupGo_frame env u b st
  rcases hres : restoreBackupGo env u b st with ⟨r, st1⟩
  rw [hres] at hr
  rcases r with e | v
  · exact hr.1
  · exact hr.1

/-- C2: at construction, deployment mode is Cloud iff both `SUPABASE_URL`
and `SUPABASE_KEY` are present (truthy) and the URL starts with the
`"http"` scheme prefix and the remote-client construction succeeds; in
every other case (including a throwing `createClient`) the mode is Local;
and the decision is fixed: no operation ever modifies the service object
afterward. -/
theorem mode_resolution (url key : Option String) (ok : Bool) :
    ((mkBackupService url key ok).deployMode = DeployMode.cloud ↔
       (jsTruthy url = true ∧ jsTruthy key = true ∧
        strStartsWith (url.getD "") "http" = true ∧ ok = true)) ∧
    (∀ (env : Env) (u b : String) (st : St),
       (createBackup env u st).2.svc = st.svc ∧
       (restoreBackup env u b st).2.svc = st.svc) := by
  constructor
  · unfold mkBackupService
    split_ifs with h1 h2
    · simp only [Bool.and_eq_true] at h1
      obtain ⟨⟨hu, hk⟩, hs⟩ := h1
      simp [hu, hk, hs, h2]
    · simp only [Bool.and_eq_true] at h1
      obtain ⟨⟨hu, hk⟩, hs⟩ := h1
      simp only [Bool.not_eq_true] at h2
      simp [hu, hk, hs, h2]
    · simp only [Bool.and_eq_true, not_and] at h1
      constructor
      · intro hm
        simp at hm
      · rintro ⟨hu, hk, hs, _⟩
        exact absurd hs (h1 ⟨hu, hk⟩)
  · intro env u b st
    exact ⟨createBackup_svc env u st, restoreBackup_svc env u b st⟩

theorem mode_resolution_witness :
    (mkBackupService (some "https://example.supabase.co") (some "key") true).deployMode =
      DeployMode.cloud ∧
    (createBackup envOk "alice" stLocal).2.svc = stLocal.svc :=
  ⟨(mode_resolution (some "https://example.supabase.co") (some "key") true).1.mpr
     ⟨by decide, by decide, by decide, rfl⟩,
   ((mode_resolution (some "https://example.supabase.co") (some "key") true).2
      envOk "alice" "b" stLocal).1⟩

/-- C5: when the source database file is missing, `createBackup` returns
`success = false` with a message naming the missing file and leaves the
entire world (filesystem, bucket, users table, usage-accounting trace)
untouched. -/
theorem createBackup_missing_source (env : Env) (u : String) (st : St)
    (h : st.fs.pathExists dbPath = false) :
    createBackup env u st =
      ({ success := false, size := 0,
         message := "Database file (database.db) not found" }, st) := by
  unfold createBackup createBackupGo
  simp [h]

theorem createBackup_missing_source_witness :
    stNoDb.fs.pathExists dbPath = false ∧
    createBackup envOk "alice" stNoDb =
      ({ success := false, size := 0,
         message := "Database file (database.db) not found" }, stNoDb) :=
  ⟨by decide, createBackup_missing_source envOk "alice" stNoDb (by decide)⟩

/-- C3: both public operations catch every internal error: when the `try`
body of `createBackup` raises `m`, the call returns
`{success := false, size := 0, message := m}`; when the `try` body of
`restoreBackup` raises, the call returns `false`; in both cases the call
returns normally instead of propagating the exception. -/
theorem no_raise_boundary (env : Env) (u b : String) (st : St) (m m2 : String) :
    ((createBackupGo env u st).1 = Except.error m →
       createBackup env u st =
         ({ success := false, size := 0, message := m }, (createBackupGo env u st).2)) ∧
    ((restoreBackupGo env u b st).1 = Except.error m2 →
       restoreBackup env u b st = (false, (restoreBackupGo env u b st).2)) := by
  constructor
  · intro h
    unfold createBackup
    rcases hgo : createBackupGo env u st with ⟨r, st1⟩
    rw [hgo] at h
    simp at h
    subst h
    rfl
  · intro h
    unfold restoreBackup
    rcases hgo : restoreBackupGo env u b st with ⟨r, st1⟩
    rw [hgo] at h
    simp at h
    subst h
    rfl

theorem sortByDesc_three {α : Type} (key : α → Nat) (l : List α) (a1 a2 a3 : α)
    (hp : l.Perm [a1, a2, a3]) (h12 : key a1 < key a2) (h23 : key a2 < key a3) :
    sortByDesc key l = [a3, a2, a1] := by
  haveI hanti : IsAntisymm α (fun a b => key b < key a) :=
    ⟨fun a b hab hba => absurd (lt_trans hab hba) (lt_irrefl _)⟩
  have hperm : (sortByDesc key l).Perm [a1, a2, a3] :=
    (List.perm_insertionSort (keyDesc key) l).trans hp
  have hsorted : List.Sorted (keyDesc key) (sortByDesc key l) :=
    List.sorted_insertionSort (keyDesc key) l
  have hne : List.Pairwise (fun a b => key a ≠ key b) [a1, a2, a3] := by
    refine List.Pairwise.cons ?_ (List.Pairwise.cons ?_ (List.Pairwise.cons ?_ List.Pairwise.nil))
    · intro b hb
      rcases List.mem_cons.mp hb with hb | hb
      · subst hb
        exact Nat.ne_of_lt h12
      · have hb3 := List.mem_singleton.mp hb
        subst hb3
        exact Nat.ne_of_lt (lt_trans h12 h23)
    · intro b hb
      have hb3 := List.mem_singleton.mp hb
      subst hb3
      exact Nat.ne_of_lt h23
    · intro b hb
      exact absurd hb (List.not_mem_nil b)
  have hne2 : List.Pairwise (fun a b => key a ≠ key b) (sortByDesc key l) :=
    (List.Perm.pairwise_iff (fun hxy => Ne.symm hxy) hperm).mpr hne
  have hstrict : List.Sorted (fun a b => key b < key a) (sortByDesc key l) :=
    (List.Pairwise.and hsorted hne2).imp
      (fun hab => lt_of_le_of_ne hab.1 (Ne.symm hab.2))
  have htgt : List.Sorted (fun a b => key b < key a) [a3, a2, a1] := by
    refine List.Pairwise.cons ?_ (List.Pairwise.cons ?_ (List.Pairwise.cons ?_ List.Pairwise.nil))
    · intro b hb
      rcases List.mem_cons.mp hb with hb | hb
      · subst hb
        exact h23
      · have hb1 := List.mem_singleton.mp hb
        subst hb1
        exact lt_trans h12 h23
    · intro b hb
      have hb1 := List.mem_singleton.mp hb
      subst hb1
      exact h12
    · intro b hb
      exact absurd hb (List.not_mem_nil b)
  have hp2 : (sortByDesc key l).Perm [a3, a2, a1] := by
    refine hperm.trans ?_
    simpa using (List.reverse_perm [a1, a2, a3]).symm
  exact List.eq_of_perm_of_sorted hp2 hstrict htgt

theorem pathExists_of_childFiles {fs : Fs} {p : FsPath}
    (h : fs.childFiles p ≠ []) : fs.pathExists p = true := by
  unfold Fs.childFiles at h
  have hfil : fs.files.filter
      (fun f => List.isPrefixOf p f.1 && f.1.length == p.length + 1) ≠ [] := by
    intro h0
    rw [h0] at h
    simp at h
  rcases List.exists_mem_of_ne_nil _ hfil with ⟨f, hf⟩
  rcases List.mem_filter.mp hf with ⟨hmem, hpred⟩
  simp only [Bool.and_eq_true] at hpred
  unfold Fs.pathExists
  rw [Bool.or_eq_true, List.any_eq_true]
  exact Or.inl ⟨f, hmem, hpred.1⟩

/-- C7: for an owner whose backups were created at distinct increasing
instants t1 < t2 < t3, `listBackups` returns the three records sorted by
creation time descending, i.e. `[t3, t2, t1]`, in both local mode and
cloud mode. -/
theorem listing_order (env : Env) (u : String) (st : St) :
    (∀ r1 r2 r3 : BackupRecord,
       r1.created_at < r2.created_at → r2.created_at < r3.created_at →
       st.svc.deployMode = DeployMode.local → env.localListErr = none →
       (localRecords st.fs u).Perm [r1, r2, r3] →
       listBackups env u st = [r3, r2, r1]) ∧
    (∀ o1 o2 o3 : CloudObject,
       o1.created_at < o2.created_at → o2.created_at < o3.created_at →
       st.svc = ⟨DeployMode.cloud, true⟩ → env.listRes = Except.ok () →
       (st.cloud.children u).Perm [o1, o2, o3] →
       listBackups env u st = [cloudRecord u o3, cloudRecord u o2, cloudRecord u o1]) := by
  constructor
  · intro r1 r2 r3 h12 h23 hloc herr hperm
    have hne : localRecords st.fs u ≠ [] := by
      intro h0
      rw [h0] at hperm
      have := hperm.length_eq
      simp at this
    have hcf : st.fs.childFiles (joinPath [backupsRoot, u]) ≠ [] := by
      intro h0
      unfold localRecords at hne
      rw [h0] at hne
      simp at hne
    have hdir := pathExists_of_childFiles hcf
    have hmain : sortByDesc (fun r : BackupRecord => r.created_at) (localRecords st.fs u)
        = [r3, r2, r1] := sortByDesc_three _ _ r1 r2 r3 hperm h12 h23
    simp [listBackups, hloc, herr, hdir, hmain]
  · intro o1 o2 o3 h12 h23 hsvc hok hperm
    simp only [listBackups, hsvc, hok, cloudListRecords]
    rw [if_pos (by simp [hsvc])]
    rw [sortByDesc_three _ _ o1 o2 o3 hperm h12 h23]
    simp

theorem listing_order_witness :
    listBackups envOk "alice" stThree =
      [{ id := "f3.zip", name := "f3.zip", size := 3, created_at := 30 },
       { id := "f2.zip", name := "f2.zip", size := 2, created_at := 20 },
       { id := "f1.zip", name := "f1.zip", size := 1, created_at := 10 }] :=
  (listing_order envOk "alice" stThree).1
    { id := "f1.zip", name := "f1.zip", size := 1, created_at := 10 }
    { id := "f2.zip", name := "f2.zip", size := 2, created_at := 20 }
    { id := "f3.zip", name := "f3.zip", size := 3, created_at := 30 }
    (by decide) (by decide) (by decide) (by decide) (by decide)

theorem isPrefixOf_succ_eq : ∀ (p q : FsPath), List.isPrefixOf p q = true →
    q.length = p.length + 1 → q = p ++ [(q.drop p.length).headD ""] := by
  intro p
  induction p with
  | nil =>
    intro q hp hl
    cases q with
    | nil => simp at hl
    | cons a t =>
      cases t with
      | nil => simp
      | cons b t2 => simp at hl
  | cons a p ih =>
    intro q hp hl
    cases q with
    | nil => simp [List.isPrefixOf] at hp
    | cons b t =>
      simp only [List.isPrefixOf, Bool.and_eq_true, beq_iff_eq] at hp
      obtain ⟨hab, hpre⟩ := hp
      subst hab
      have hl2 : t.length = p.length + 1 := by simpa using hl
      have ht := ih t hpre hl2
      conv_lhs => rw [ht]
      simp

theorem localRecords_mem {fs : Fs} {u : String} {r : BackupRecord}
    (hu : PlainSeg u) (hr : r ∈ localRecords fs u) :
    ((["backups", u, r.name] : FsPath), (⟨r.size, r.created_at⟩ : FileMeta)) ∈ fs.files := by
  have hdir : joinPath [backupsRoot, u] = ["backups", u] := by
    refine joinPath_plain ?_
    intro s hs
    rcases List.mem_cons.mp hs with hs | hs
    · subst hs
      decide
    · have hs2 := List.mem_singleton.mp hs
      subst hs2
      exact hu
  unfold localRecords at hr
  rcases List.mem_map.mp hr with ⟨nm, hnm, hrec⟩
  unfold Fs.childFiles at hnm
  rcases List.mem_map.mp hnm with ⟨f, hf, hnm2⟩
  rcases List.mem_filter.mp hf with ⟨hfmem, hpred⟩
  simp only [Bool.and_eq_true, beq_iff_eq] at hpred
  obtain ⟨hpre, hlen⟩ := hpred
  rw [hdir] at hpre hlen
  have hf1 := isPrefixOf_succ_eq ["backups", u] f.1 hpre (by simpa using hlen)
  subst hrec
  subst hnm2
  have hname : ((["backups", u,
      ((f.1.drop (joinPath [backupsRoot, u]).length).headD "")] : FsPath)) = f.1 := by
    rw [hdir]
    conv_rhs => rw [hf1]
    simp
  simp only [hname]
  simpa using hfmem

theorem cloudListRecords_mem {c : Cloud} {u : String} {r : BackupRecord}
    (hu : PlainSeg u) (hr : r ∈ cloudListRecords c u) :
    ∃ o ∈ c.objects, o.key = [u, r.name] := by
  unfold cloudListRecords at hr
  rcases List.mem_map.mp hr with ⟨o, ho, hrec⟩
  have ho2 : o ∈ sortByDesc (fun o : CloudObject => o.created_at) (c.children u) :=
    List.mem_of_mem_take ho
  have ho3 : o ∈ c.children u :=
    (List.perm_insertionSort (keyDesc (fun o : CloudObject => o.created_at))
      (c.children u)).subset ho2
  unfold Cloud.children at ho3
  rcases List.mem_filter.mp ho3 with ⟨homem, hpred⟩
  simp only [Bool.and_eq_true, beq_iff_eq] at hpred
  obtain ⟨hpre, hlen⟩ := hpred
  rw [hu.1] at hpre hlen
  have hkey := isPrefixOf_succ_eq [u] o.key hpre (by simpa using hlen)
  refine ⟨o, homem, ?_⟩
  subst hrec
  simp only [cloudRecord, hu.1]
  conv_lhs => rw [hkey]
  simp

theorem isPrefixOf_backupsDir_false {A B n : String} (hAB : A ≠ B) :
    List.isPrefixOf ["backups", B] (["backups", A, n] : FsPath) = false := by
  have hBA : (B == A) = false := beq_eq_false_iff_ne.mpr (fun h => hAB h.symm)
  simp [List.isPrefixOf, hBA]

theorem isPrefixOf_folder_false {A B n : String} (hAB : A ≠ B) :
    List.isPrefixOf [B] ([A, n] : FsPath) = false := by
  have hBA : (B == A) = false := beq_eq_false_iff_ne.mpr (fun h => hAB h.symm)
  simp [List.isPrefixOf, hBA]

theorem createBackupGo_local_writes (env : Env) (u : String) (st : St)
    (hloc : st.svc.deployMode = DeployMode.local) :
    ∀ size st1, createBackupGo env u st = (Except.ok size, st1) →
      st1.writes = st.writes ++
        [joinPath [backupFileName env.timestamp],
         joinPath [backupsRoot, u, backupFileName env.timestamp]] := by
  intro size st1 h
  unfold createBackupGo at h
  split at h
  · simp at h
  · split at h
    · simp at h
    · rename_i size0 hzip
      split at h
      · simp at h
      · rename_i a st2 heq
        simp only [Prod.mk.injEq, Except.ok.injEq] at h
        obtain ⟨hsz, hst⟩ := h
        subst hst
        unfold persistStep at heq
        have hcond : ((stageState env size0 st).svc.deployMode == DeployMode.cloud
            && (stageState env size0 st).svc.hasClient) = false := by
          simp [stageState, hloc]
        rw [hcond] at heq
        simp only [Bool.false_eq_true, if_false, Prod.mk.injEq, Except.ok.injEq] at heq
        obtain ⟨_, hst2⟩ := heq
        subst hst2
        simp [accountState, stageState]

theorem createBackupGo_cloud_object (env : Env) (u : String) (st : St)
    (hsvc : st.svc = ⟨DeployMode.cloud, true⟩) :
    ∀ size st1, createBackupGo env u st = (Except.ok size, st1) →
      st1.cloud.objects.head? =
        some ⟨splitSegs u ++ splitSegs (backupFileName env.timestamp), some size, env.now⟩ := by
  intro size st1 h
  unfold createBackupGo at h
  split at h
  · simp at h
  · split at h
    · simp at h
    · rename_i size0 hzip
      split at h
      · simp at h
      · rename_i a st2 heq
        simp only [Prod.mk.injEq, Except.ok.injEq] at h
        obtain ⟨hsz, hst⟩ := h
        subst hsz
        subst hst
        unfold persistStep at heq
        have hcond : ((stageState env size0 st).svc.deployMode == DeployMode.cloud
            && (stageState env size0 st).svc.hasClient) = true := by
          simp [stageState, hsvc]
        rw [hcond] at heq
        simp only [if_true] at heq
        have hdone : st2.cloud.objects.head? =
            some ⟨splitSegs u ++ splitSegs (backupFileName env.timestamp),
                  some size0, env.now⟩ := by
          split at heq
          · rename_i be hgb
            split at heq
            · split at heq
              · simp at heq
              · unfold cloudUpload at heq
                split at heq
                · simp at heq
                · simp only [Prod.mk.injEq, Except.ok.injEq] at heq
                  obtain ⟨_, hst2⟩ := heq
                  subst hst2
                  rfl
            · simp at heq
          · unfold cloudUpload at heq
            split at heq
            · simp at heq
            · simp only [Prod.mk.injEq, Except.ok.injEq] at heq
              obtain ⟨_, hst2⟩ := heq
              subst hst2
              rfl
        simpa [accountState] using hdone

/-- C1 counterexample: the code does not sanitize `backupId`; a
`backupId` containing a parent-directory segment makes the local restore
path resolve into owner `bob`'s directory while restoring as `alice`,
and the restore succeeds against `bob`'s file. -/
theorem storedId_not_sanitized :
    joinPath [backupsRoot, "alice", "../bob/secret.zip"] = ["backups", "bob", "secret.zip"] ∧
    List.isPrefixOf ["backups", "alice"]
      (joinPath [backupsRoot, "alice", "../bob/secret.zip"]) = false ∧
    (restoreBackup envOk "alice" "../bob/secret.zip" stTraversal).1 = true := by
  decide

/-- C1 amended: `Put` and `List` are confined to the owner's namespace
and `ListBackups(A)` never returns a record from owner `B`'s namespace
for `A ≠ B`, in both modes; however `storedId` values containing path
separators or parent-directory segments are NOT sanitized or rejected,
so the restore resolution can escape the owner's directory (see the
counterexample). -/
theorem tenant_isolation_amended (env : Env) (A B : String) (st : St)
    (hA : PlainSeg A) (hB : PlainSeg B) (hAB : A ≠ B) :
    (st.svc.deployMode = DeployMode.local →
       ∀ r ∈ listBackups env A st,
         ((["backups", A, r.name] : FsPath), (⟨r.size, r.created_at⟩ : FileMeta)) ∈ st.fs.files ∧
         List.isPrefixOf ["backups", B] (["backups", A, r.name] : FsPath) = false) ∧
    (st.svc = ⟨DeployMode.cloud, true⟩ →
       ∀ r ∈ listBackups env A st,
         ∃ o ∈ st.cloud.objects, o.key = [A, r.name] ∧
           List.isPrefixOf (splitSegs B) o.key = false) ∧
    (st.svc.deployMode = DeployMode.local →
       ∀ size st1, createBackupGo env A st = (Except.ok size, st1) →
         st1.writes = st.writes ++
           [joinPath [backupFileName env.timestamp],
            joinPath [backupsRoot, A, backupFileName env.timestamp]]) ∧
    (st.svc = ⟨DeployMode.cloud, true⟩ → PlainSeg (backupFileName env.timestamp) →
       ∀ size st1, createBackupGo env A st = (Except.ok size, st1) →
         st1.cloud.objects.head? =
           some ⟨[A, backupFileName env.timestamp], some size, env.now⟩ ∧
         List.isPrefixOf (splitSegs B) ([A, backupFileName env.timestamp] : FsPath)
           = false) := by
  refine ⟨?_, ?_, ?_, ?_⟩
  · intro hloc r hr
    have hr2 : r ∈ localRecords st.fs A := by
      revert hr
      unfold listBackups
      rw [if_neg (by simp [hloc])]
      rcases env.localListErr with _ | e
      · by_cases hdir : st.fs.pathExists (joinPath [backupsRoot, A]) = true
        · rw [if_pos hdir]
          intro hr
          exact (List.perm_insertionSort _ _).subset hr
        · rw [if_neg hdir]
          intro hr
          exact absurd hr (List.not_mem_nil r)
      · intro hr
        exact absurd hr (List.not_mem_nil r)
    exact ⟨localRecords_mem hA hr2, isPrefixOf_backupsDir_false hAB⟩
  · intro hsvc r hr
    have hr2 : r ∈ cloudListRecords st.cloud A := by
      revert hr
      unfold listBackups
      rw [if_pos (by simp [hsvc])]
      rcases env.listRes with e | v
      · intro hr
        exact absurd hr (List.not_mem_nil r)
      · intro hr
        exact hr
    rcases cloudListRecords_mem hA hr2 with ⟨o, homem, hkey⟩
    refine ⟨o, homem, hkey, ?_⟩
    rw [hkey, hB.1]
    exact isPrefixOf_folder_false hAB
  · intro hloc size st1 h
    exact createBackupGo_local_writes env A st hloc size st1 h
  · intro hsvc hfn size st1 h
    have hobj := createBackupGo_cloud_object env A st hsvc size st1 h
    rw [hA.1, hfn.1] at hobj
    refine ⟨hobj, ?_⟩
    rw [hB.1]
    exact isPrefixOf_folder_false hAB

theorem tenant_isolation_amended_witness :
    ((["backups", "alice", "f1.zip"] : FsPath), (⟨1, 10⟩ : FileMeta)) ∈ stThree.fs.files ∧
    List.isPrefixOf ["backups", "bob"] (["backups", "alice", "f1.zip"] : FsPath) = false :=
  (tenant_isolation_amended envOk "alice" "bob" stThree (by decide) (by decide)
      (by decide)).1 rfl
    { id := "f1.zip", name := "f1.zip", size := 1, created_at := 10 } (by decide)

theorem not_mem_removeF (fs : Fs) (p : FsPath) (m : FileMeta) :
    (p, m) ∉ (fs.removeF p).files := by
  unfold Fs.removeF
  intro h
  rcases List.mem_filter.mp h with ⟨_, hpred⟩
  simp at hpred

theorem mem_removeF_sub {fs : Fs} {p : FsPath} {x : FsPath × FileMeta}
    (h : x ∈ (fs.removeF p).files) : x ∈ fs.files :=
  (List.mem_filter.mp h).1

theorem statF_writeFile_self (fs : Fs) (p : FsPath) (m : FileMeta) :
    (fs.writeFile p m).statF p = some m := by
  simp [Fs.writeFile, Fs.statF]

theorem isPrefixOf_self : ∀ l : FsPath, List.isPrefixOf l l = true := by
  intro l
  induction l with
  | nil => rfl
  | cons a t ih => simp [List.isPrefixOf, ih]

theorem not_mem_of_pathExists_false {fs : Fs} {p : FsPath} (h : fs.pathExists p = false) :
    ∀ m : FileMeta, (p, m) ∉ fs.files := by
  intro m hmem
  unfold Fs.pathExists at h
  rw [Bool.or_eq_false_iff] at h
  have h1 := h.1
  rw [List.any_eq_false] at h1
  exact absurd (isPrefixOf_self p) (by simpa using h1 (p, m) hmem)

theorem resolveRestore_error_state (env : Env) (u b : String) (st : St) :
    ∀ e st1, resolveRestore env u b st = (Except.error e, st1) → st1 = st := by
  intro e st1 h
  unfold resolveRestore at h
  split at h
  · split at h
    · simp only [Prod.mk.injEq] at h
      exact h.2.symm
    · split at h
      · simp only [Prod.mk.injEq] at h
        exact h.2.symm
      · simp at h
  · split at h
    · simp at h
    · simp only [Prod.mk.injEq] at h
      exact h.2.symm

theorem resolveRestore_ok_state (env : Env) (u b : String) (st : St) :
    ∀ p st1, resolveRestore env u b st = (Except.ok p, st1) →
      st1 = st ∨
      (p = restoreTempPath ∧ st.svc.deployMode = DeployMode.cloud ∧
       ∃ mm, st1 = { st with
                     fs := st.fs.writeFile restoreTempPath mm
                     writes := st.writes ++ [restoreTempPath] }) := by
  intro p st1 h
  unfold resolveRestore at h
  split at h
  · rename_i hcond
    simp only [Bool.and_eq_true, beq_iff_eq] at hcond
    split at h
    · simp at h
    · split at h
      · simp at h
      · rename_i o hfind
        simp only [Prod.mk.injEq, Except.ok.injEq] at h
        obtain ⟨hp, hst⟩ := h
        exact Or.inr ⟨hp.symm, hcond.1, ⟨o.size.getD 0, env.now⟩, hst.symm⟩
  · split at h
    · simp only [Prod.mk.injEq, Except.ok.injEq] at h
      exact Or.inl h.2.symm
    · simp at h

theorem createBackupGo_ok_fs (env : Env) (u : String) (st : St) :
    ∀ size st1, createBackupGo env u st = (Except.ok size, st1) →
      st1.fs = ((stageState env size st).fs).removeF
                 (joinPath [backupFileName env.timestamp]) ∨
      st1.fs = (((stageState env size st).fs).ensureDir
                  (joinPath [backupsRoot, u])).moveF
                 (joinPath [backupFileName env.timestamp])
                 (joinPath [backupsRoot, u, backupFileName env.timestamp]) := by
  intro size st1 h
  unfold createBackupGo at h
  split at h
  · simp at h
  · split at h
    · simp at h
    · rename_i size0 hzip
      split at h
      · simp at h
      · rename_i a st2 heq
        simp only [Prod.mk.injEq, Except.ok.injEq] at h
        obtain ⟨hsz, hst⟩ := h
        subst hsz
        subst hst
        unfold persistStep at heq
        split at heq
        · split at heq
          · split at heq
            · split at heq
              · simp at heq
              · unfold cloudUpload at heq
                split at heq
                · simp at heq
                · simp only [Prod.mk.injEq, Except.ok.injEq] at heq
                  obtain ⟨_, hst2⟩ := heq
                  subst hst2
                  exact Or.inl rfl
            · simp at heq
          · unfold cloudUpload at heq
            split at heq
            · simp at heq
            · simp only [Prod.mk.injEq, Except.ok.injEq] at heq
              obtain ⟨_, hst2⟩ := heq
              subst hst2
              exact Or.inl rfl
        · simp only [Prod.mk.injEq, Except.ok.injEq] at heq
          obtain ⟨_, hst2⟩ := heq
          subst hst2
          exact Or.inr rfl

/-- C4 counterexample: when the cloud upload fails, `createBackup`
reports failure but the staged temp archive is left behind in the
working directory (it was absent before the call). -/
theorem temp_cleanup_counterexample :
    ((createBackup { envOk with uploadRes := Except.error "network error" }
        "alice" stCloud).1.success = false) ∧
    ((createBackup { envOk with uploadRes := Except.error "network error" }
        "alice" stCloud).2.fs.pathExists (joinPath [backupFileName envOk.timestamp]) = true) ∧
    (stCloud.fs.pathExists (joinPath [backupFileName envOk.timestamp]) = false) := by
  decide

/-- C4 amended: the cloud-mode restore download temp is removed on every
exit path of `restoreBackup`, and a SUCCESSFUL `createBackup` leaves no
staged temp archive behind (cloud: deleted after upload; local: moved
into the owner directory); however on failing exit paths after staging
(e.g. a failed upload) `createBackup` does NOT remove the staged archive
(see the counterexample). -/
theorem temp_cleanup_amended (env : Env) (u b : String) (st : St) :
    (st.fs.pathExists restoreTempPath = false →
       ∀ m : FileMeta, (restoreTempPath, m) ∉ (restoreBackup env u b st).2.fs.files) ∧
    (PlainSeg u → PlainSeg (backupFileName env.timestamp) →
       (createBackup env u st).1.success = true →
       ∀ m : FileMeta,
         (joinPath [backupFileName env.timestamp], m) ∉ (createBackup env u st).2.fs.files) := by
  constructor
  · intro hinit m hmem
    have hnone := not_mem_of_pathExists_false hinit
    unfold restoreBackup restoreBackupGo at hmem
    rcases hres : resolveRestore env u b st with ⟨r, st1⟩
    rw [hres] at hmem
    rcases r with e | p
    · have hst := resolveRestore_error_state env u b st e st1 hres
      rw [hst] at hmem
      exact hnone m hmem
    · rcases resolveRestore_ok_state env u b st p st1 hres with hst | ⟨hp, hmode, mm, hst1⟩
      · rw [hst] at hmem
        by_cases hc : (st.svc.deployMode == DeployMode.cloud) = true
        · simp only [hc, if_true] at hmem
          exact hnone m (mem_removeF_sub hmem)
        · simp only [Bool.not_eq_true] at hc
          simp only [hc] at hmem
          exact hnone m hmem
      · rw [hst1] at hmem
        rw [hp] at hmem
        simp only [hmode] at hmem
        simp at hmem
        exact not_mem_removeF _ _ m hmem
  · intro hu hfn hsucc m hmem
    have htmp : joinPath [backupFileName env.timestamp] = [backupFileName env.timestamp] := by
      refine joinPath_plain ?_
      intro s hs
      have hs2 := List.mem_singleton.mp hs
      subst hs2
      exact hfn
    have htgt : joinPath [backupsRoot, u, backupFileName env.timestamp] =
        ["backups", u, backupFileName env.timestamp] := by
      refine joinPath_plain ?_
      intro s hs
      rcases List.mem_cons.mp hs with hs | hs
      · subst hs
        decide
      · rcases List.mem_cons.mp hs with hs | hs
        · subst hs
          exact hu
        · have hs2 := List.mem_singleton.mp hs
          subst hs2
          exact hfn
    rcases hgo : createBackupGo env u st with ⟨r, st1⟩
    rcases r with e | size
    · rw [createBackup, hgo] at hsucc
      simp at hsucc
    · rw [createBackup, hgo] at hmem
      simp only at hmem
      rcases createBackupGo_ok_fs env u st size st1 hgo with hfs | hfs
      · rw [hfs] at hmem
        exact not_mem_removeF _ _ m hmem
      · rw [hfs] at hmem
        unfold Fs.moveF at hmem
        rw [show (((stageState env size st).fs).ensureDir
              (joinPath [backupsRoot, u])).statF (joinPath [backupFileName env.timestamp]) =
            some ⟨size, env.now⟩ from statF_writeFile_self st.fs _ _] at hmem
        simp only [Fs.writeFile] at hmem
        rcases List.mem_cons.mp hmem with hhd | htl
        · have hpaths : joinPath [backupFileName env.timestamp] =
              joinPath [backupsRoot, u, backupFileName env.timestamp] :=
            congrArg Prod.fst hhd
          rw [htmp, htgt] at hpaths
          simp at hpaths
        · exact not_mem_removeF _ _ m (List.mem_filter.mp htl).1

theorem temp_cleanup_amended_witness :
    ((restoreTempPath, (⟨5, 100⟩ : FileMeta)) ∉
       (restoreBackup envOk "alice" "b1.zip" stCloud).2.fs.files) ∧
    ((joinPath [backupFileName envOk.timestamp], (⟨5, 100⟩ : FileMeta)) ∉
       (createBackup envOk "alice" stLocal).2.fs.files) :=
  ⟨(temp_cleanup_amended envOk "alice" "b1.zip" stCloud).1 (by decide) ⟨5, 100⟩,
   (temp_cleanup_amended envOk "alice" "b1.zip" stLocal).2 (by decide) (by decide)
     (by decide) ⟨5, 100⟩⟩

theorem updateStorageUsage_overwrite (rows : List UserRow) (u : String) (n : Nat) :
    ∀ row ∈ updateStorageUsage rows u n, row.id = u → row.storageUsed = n := by
  intro row hrow hid
  unfold updateStorageUsage at hrow
  rcases List.mem_map.mp hrow with ⟨orig, horig, heq⟩
  by_cases h : orig.id = u
  · rw [if_pos h] at heq
    subst heq
    rfl
  · rw [if_neg h] at heq
    subst heq
    exact absurd hid h

/-- C6: a successful `createBackup` invokes the usage-accounting
collaborator exactly once, with the archive size, and the recorded
`storageUsed` of the owner row becomes exactly that size (overwrite, not
accumulate); a failed `createBackup` invokes it zero times and leaves the
users table unchanged. -/
theorem usage_accounting (env : Env) (u : String) (st : St) :
    ((createBackup env u st).1.success = true →
       (createBackup env u st).2.usageCalls =
         st.usageCalls ++ [(u, (createBackup env u st).1.size)] ∧
       (createBackup env u st).2.users =
         updateStorageUsage st.users u ((createBackup env u st).1.size) ∧
       ∀ row ∈ (createBackup env u st).2.users, row.id = u →
         row.storageUsed = (createBackup env u st).1.size) ∧
    ((createBackup env u st).1.success = false →
       (createBackup env u st).2.usageCalls = st.usageCalls ∧
       (createBackup env u st).2.users = st.users) := by
  rcases hgo : createBackupGo env u st with ⟨r, st1⟩
  rcases r with e | size
  · simp only [createBackup, hgo]
    constructor
    · intro h
      simp at h
    · intro _
      have hs := (createBackupGo_spec env u st).2 e st1 hgo
      exact ⟨hs.2.2, hs.2.1⟩
  · simp only [createBackup, hgo]
    constructor
    · intro _
      have hs := (createBackupGo_spec env u st).1 size st1 hgo
      refine ⟨hs.2.2, hs.2.1, ?_⟩
      intro row hrow hid
      rw [hs.2.1] at hrow
      exact updateStorageUsage_overwrite st.users u size row hrow hid
    · intro h
      simp at h

theorem usage_accounting_witness :
    (createBackup envOk "alice" stLocal).1.success = true ∧
    (createBackup envOk "alice" stLocal).2.usageCalls =
      stLocal.usageCalls ++ [("alice", (createBackup envOk "alice" stLocal).1.size)] :=
  ⟨by decide, ((usage_accounting envOk "alice" stLocal).1 (by decide)).1⟩

/-- C10: `updateStorageUsage(userId, bytes)` unconditionally overwrites
`storageUsed` with `bytes` on the matching row (leaving every other field
of that row intact), leaves every non-matching row untouched, and checks
nothing against `storageLimit` — the recorded usage can exceed the
limit. -/
theorem updateStorageUsage_spec (rows : List UserRow) (u : String) (bytes : Nat) :
    ((updateStorageUsage rows u bytes).length = rows.length) ∧
    (∀ (i : Nat) (old : UserRow), rows[i]? = some old → old.id ≠ u →
       (updateStorageUsage rows u bytes)[i]? = some old) ∧
    (∀ (i : Nat) (old : UserRow), rows[i]? = some old → old.id = u →
       (updateStorageUsage rows u bytes)[i]? = some { old with storageUsed := bytes }) ∧
    (∃ row ∈ updateStorageUsage [aliceRow] "alice" 20,
       row.storageLimit < row.storageUsed) := by
  refine ⟨by simp [updateStorageUsage], ?_, ?_, by decide⟩
  · intro i old hold hne
    simp [updateStorageUsage, List.getElem?_map, hold, hne]
  · intro i old hold heq
    simp [updateStorageUsage, List.getElem?_map, hold, heq]

theorem updateStorageUsage_spec_witness :
    (updateStorageUsage [aliceRow] "alice" 20)[0]? =
      some { aliceRow with storageUsed := 20 } :=
  (updateStorageUsage_spec [aliceRow] "alice" 20).2.2.1 0 aliceRow (by decide) (by decide)

/-- C8: `listBackups` is total and best-effort: in cloud mode a provider
error degrades to the empty list and an owner with zero objects gets the
empty list; in local mode a thrown filesystem error degrades to the empty
list and a missing owner directory yields the empty list, not an
error. -/
theorem listBackups_best_effort (env : Env) (u : String) (st : St) :
    (st.svc = ⟨DeployMode.cloud, true⟩ →
       (∀ e, env.listRes = Except.error e → listBackups env u st = []) ∧
       (st.cloud.children u = [] → listBackups env u st = [])) ∧
    (st.svc.deployMode = DeployMode.local →
       (∀ e, env.localListErr = some e → listBackups env u st = []) ∧
       (st.fs.pathExists (joinPath [backupsRoot, u]) = false →
          listBackups env u st = [])) := by
  constructor
  · intro hsvc
    constructor
    · intro e he
      simp [listBackups, hsvc, he]
    · intro hch
      rcases hl : env.listRes with e | v
      · simp [listBackups, hsvc, hl]
      · simp [listBackups, hsvc, hl, cloudListRecords, hch, sortByDesc, List.insertionSort]
  · intro hloc
    constructor
    · intro e he
      simp [listBackups, hloc, he]
    · intro hdir
      rcases hl : env.localListErr with _ | e
      · simp [listBackups, hloc, hl, hdir]
      · simp [listBackups, hloc, hl]

theorem listBackups_best_effort_witness :
    listBackups { envOk with listRes := Except.error "provider down" } "alice" stCloud = [] ∧
    listBackups envOk "alice" stNoDb = [] :=
  ⟨((listBackups_best_effort { envOk with listRes := Except.error "provider down" }
       "alice" stCloud).1 (by decide)).1 "provider down" rfl,
   ((listBackups_best_effort envOk "alice" stNoDb).2 (by decide)).2 (by decide)⟩

/-- C9: in cloud mode (with a client), whenever the download succeeds,
`restoreBackup` writes the downloaded object to the single fixed path
`restore_temp.zip` in the working directory — the written path is a
constant independent of both `ownerId` and `backupId`. -/
theorem cloud_restore_fixed_temp (env : Env) (u b : String) (st : St)
    (hsvc : st.svc = ⟨DeployMode.cloud, true⟩)
    (hdl : env.downloadRes = Except.ok ())
    (hobj : (st.cloud.objects.find? (fun o => o.key == splitSegs u ++ splitSegs b)).isSome
       = true) :
    restoreTempPath = ["restore_temp.zip"] ∧
    (restoreBackup env u b st).2.writes = st.writes ++ [["restore_temp.zip"]] := by
  have hpath : restoreTempPath = ["restore_temp.zip"] := by decide
  refine ⟨hpath, ?_⟩
  obtain ⟨o, ho⟩ := Option.isSome_iff_exists.mp hobj
  simp [restoreBackup, restoreBackupGo, resolveRestore, hsvc, hdl, ho, hpath]

theorem cloud_restore_fixed_temp_witness :
    (restoreBackup envOk "alice" "b1.zip" stCloud).2.writes =
      stCloud.writes ++ [["restore_temp.zip"]] :=
  (cloud_restore_fixed_temp envOk "alice" "b1.zip" stCloud rfl rfl (by decide)).2

theorem no_raise_boundary_witness :
    createBackup envOk "alice" stNoDb =
      ({ success := false, size := 0,
         message := "Database file (database.db) not found" },
       (createBackupGo envOk "alice" stNoDb).2) ∧
    restoreBackup envOk "alice" "missing.zip" stLocal =
      (false, (restoreBackupGo envOk "alice" "missing.zip" stLocal).2) :=
  ⟨(no_raise_boundary envOk "alice" "missing.zip" stNoDb
      "Database file (database.db) not found" "x").1 (by decide),
   (no_raise_boundary envOk "alice" "missing.zip" stLocal
      "x" "Backup file not found locally").2 (by decide)⟩

example : joinPath ["restore_temp.zip"] = ["restore_temp.zip"] := by decide

example : joinPath ["backups", "alice", "backup_2024_GMT.zip"] =
    ["backups", "alice", "backup_2024_GMT.zip"] := by decide

example : (createBackup envOk "alice" stLocal).1.success = true := by decide

example : (createBackup envOk "alice" stCloud).1.success = true := by decide

example : (restoreBackup envOk "alice" "b1.zip" stCloud).1 = true := by decide

example : listBackups envOk "alice" stCloud =
    [{ id := "b1.zip", name := "b1.zip", size := 5, created_at := 50 }] := by decide

end MoMoHub
